import Mathlib

/-!
Verification of the measurement-application core of `ethzasl_msf`
(`msf_core/include/msf_core/msf_measurement.hpp`).

The development shallowly embeds the measurement hierarchy of the header:

* `MSF_MeasurementBase` carries a public mutable `time_` field; its `apply`
  member mutates a state snapshot held by the core, so we embed `apply` as a
  function returning the new snapshot, the new core, the log messages emitted
  through the ROS logging macros, and an optional error value (`none` embeds a
  C++ `void` return that signals no error through its return value).
* `MSF_InvalidMeasurement::apply` (header lines 70-72) only calls
  `ROS_ERROR_STREAM` and returns.
* `MSF_Measurement::makeFromSensorReading` (lines 93-96) assigns `time_` and
  then calls the virtual `makeFromSensorReadingImpl` hook; the hook is embedded
  as an explicit function argument.
* `MSF_InitMeasurement` (lines 105-161) stores an `EKFState` payload whose
  state variables each carry a value `state_` and a flag `hasResetValue`;
  `setStateInitValue`, `resetStateInitValue` and `getStateInitValue` are
  embedded field-by-field from lines 137-158.
* `sortMeasurements` (lines 174-177) compares measurements by `time_`.

C++ `double` scalars (times, matrix entries) are embedded as rationals `ℚ`
so that all definitions are executable; state dimensions are explicit `Nat`
parameters with `Fin`-indexed vectors and `Matrix` over `ℚ`.

The implementations of `MSF_MeasurementBase::calculateAndApplyCorrection` and
`MSF_InitMeasurement::apply` live in
`msf_core/implementation/msf_measurement.hpp`, which is not part of the
sources; those two operations, and the scheduler queue around
`sortMeasurements`, are modelled from the specification (their definitions say
so in their doc comments).
-/

namespace MsfCore

/-- Error taxonomy of the specification (section 7, plus the
`MeasurementError::Invalid` result named in section 4.1). -/
inductive MeasurementError where
  | conversionFailed
  | dimensionMismatch
  | tooOld
  | singularInnovation
  | notSet
  | invalid
deriving DecidableEq, Repr

/-- A state+covariance snapshot: timestamp, state vector and covariance
matrix (the `stateWithCovariance` / `EKFState` object the C++ `apply`
receives, restricted to the fields the header touches). -/
structure Snapshot (n : Nat) where
  time : ℚ
  x : Fin n → ℚ
  P : Matrix (Fin n) (Fin n) ℚ
deriving DecidableEq

/-- Outcome of one `apply` call: the (possibly mutated) snapshot, the
(possibly mutated) core, the log lines emitted through the ROS macros during
the call, and the error signalled by the call (`none` for a C++ `void`
return that reports no error value). -/
structure ApplyOutcome (n : Nat) (Core : Type) where
  state : Snapshot n
  core : Core
  log : List String
  err : Option MeasurementError
deriving DecidableEq

/-- Message printed by `MSF_InvalidMeasurement::apply` (header line 71). -/
def invalidApplyMsg : String :=
  "Called apply() on an MSF_InvalidMeasurement object. This should never happen."

/-- Embedding of `MSF_InvalidMeasurement::apply` (header lines 70-72): the
body is a single `ROS_ERROR_STREAM` call; the snapshot and the core are not
touched and the function returns `void` (no error value). -/
def invalidMeasurementApply {n : Nat} {Core : Type} (stateWithCovariance : Snapshot n)
    (core : Core) (log : List String) : ApplyOutcome n Core :=
  { state := stateWithCovariance
    core := core
    log := log ++ [invalidApplyMsg]
    err := none }

/-- One state variable of the `EKFState` payload of an `MSF_InitMeasurement`:
the stored value `state_` and the `hasResetValue` flag. -/
structure StateVar where
  state_ : ℚ
  hasResetValue : Bool
deriving DecidableEq

/-- The slice of the `EKFState` payload (`InitState`) that the header's
`MSF_InitMeasurement` members read and write: the state-variable sequence and
the `P_`, `w_m_`, `a_m_` fields exposed by `get_P`, `get_w_m`, `get_a_m`. -/
structure InitStateT (N : Nat) where
  vars : Fin N → StateVar
  P_ : Matrix (Fin N) (Fin N) ℚ
  w_m_ : Fin 3 → ℚ
  a_m_ : Fin 3 → ℚ
deriving DecidableEq

/-- Embedding of `MSF_InitMeasurement` (header lines 105-161): the `InitState`
payload, the `ContainsInitialSensorReadings_` flag and the inherited
`time_`. -/
structure MSF_InitMeasurement (N : Nat) where
  InitState : InitStateT N
  ContainsInitialSensorReadings_ : Bool
  time_ : ℚ
deriving DecidableEq

/-- Embedding of `MSF_InitMeasurement::setStateInitValue` (header lines
137-141): store `initvalue` in the state variable at `INDEX` and set its
`hasResetValue` flag — unconditionally. -/
def setStateInitValue {N : Nat} (meas : MSF_InitMeasurement N) (INDEX : Fin N)
    (initvalue : ℚ) : MSF_InitMeasurement N :=
  { meas with
    InitState :=
      { meas.InitState with
        vars := Function.update meas.InitState.vars INDEX ⟨initvalue, true⟩ } }

/-- Embedding of `MSF_InitMeasurement::resetStateInitValue` (header lines
146-149): clear the `hasResetValue` flag of the state variable at `INDEX`,
leaving its stored value in place. -/
def resetStateInitValue {N : Nat} (meas : MSF_InitMeasurement N) (INDEX : Fin N) :
    MSF_InitMeasurement N :=
  { meas with
    InitState :=
      { meas.InitState with
        vars :=
          Function.update meas.InitState.vars INDEX
            ⟨(meas.InitState.vars INDEX).state_, false⟩ } }

/-- Embedding of `MSF_InitMeasurement::getStateInitValue` (header lines
154-158): return the state variable stored at `INDEX`; the body performs no
check of `hasResetValue` and signals no error. -/
def getStateInitValue {N : Nat} (meas : MSF_InitMeasurement N) (INDEX : Fin N) :
    StateVar :=
  meas.InitState.vars INDEX

/-- Embedding of the sensor-measurement object `MSF_Measurement<T,
MEASUREMENTSIZE>` (header lines 81-98): the inherited `time_` field and the
noise covariance `R_`. The sensor payload of a concrete subclass is carried
by the type parameter `T` of its conversion hook. -/
structure MSF_Measurement (msize : Nat) where
  time_ : ℚ
  R_ : Matrix (Fin msize) (Fin msize) ℚ
deriving DecidableEq

/-- Embedding of `MSF_Measurement::makeFromSensorReading` (header lines
93-96): assign `time_ := timestamp` on the already-constructed object, then
run the virtual `makeFromSensorReadingImpl` hook (passed explicitly as
`impl`) on the reading. -/
def makeFromSensorReading {T : Type} {msize : Nat}
    (impl : T → MSF_Measurement msize → MSF_Measurement msize)
    (meas : MSF_Measurement msize) (reading : T) (timestamp : ℚ) :
    MSF_Measurement msize :=
  impl reading { meas with time_ := timestamp }

/-- A measurement as seen by the scheduler: the `time_` field the comparator
reads, and the insertion sequence number we use to record enqueue order (a
ghost field: it only tags a measurement with its position in the enqueue
sequence). -/
structure SchedMeas where
  time_ : ℚ
  seq : Nat
deriving DecidableEq

/-- Embedding of the comparator `sortMeasurements::operator()` (header lines
174-177): `lhs.time_ < rhs.time_`. -/
def sortMeasurements (lhs rhs : SchedMeas) : Bool :=
  lhs.time_ < rhs.time_

/-- Modelled from the spec: the MeasurementScheduler's `enqueue` (spec
sections 3 and 4.6; the container that uses `sortMeasurements` is not among
the sources). The pending queue is kept ordered by the `sortMeasurements`
comparator; a new measurement is inserted before the first queued element the
comparator places strictly after it, hence after every element with an equal
or smaller timestamp (stable ties, as the ordering invariant demands). -/
def enqueue (m : SchedMeas) : List SchedMeas → List SchedMeas
  | [] => [m]
  | q :: rest => if sortMeasurements m q then m :: q :: rest else q :: enqueue m rest

/-- Modelled from the spec: enqueueing a batch of measurements one at a time,
in the given order, into an initially empty scheduler queue; draining then
yields the resulting list front to back (spec section 4.6). -/
def scheduleAll (ms : List SchedMeas) : List SchedMeas :=
  ms.foldl (fun q m => enqueue m q) []

/-- Modelled from the spec: the generic correction inputs a
`TypedMeasurement` conversion produces for a state of dimension `n` (spec
section 4.2): measurement dimension `m`, Jacobian `H`, residual `res`, noise
covariance `R`, and the outcome `dimsValid` of the construction-time
validation of the H/R sizes against the state size. -/
structure CorrectionInputs (n m : Nat) where
  H : Matrix (Fin m) (Fin n) ℚ
  res : Fin m → ℚ
  R : Matrix (Fin m) (Fin m) ℚ
  dimsValid : Bool

/-- Modelled from the spec: the CorrectionEngine update
`calculateAndApplyCorrection` applies to one snapshot (spec section 4.3,
declared at header lines 59-61, implementation not among the sources):

  S = H P Hᵗ + R, K = P Hᵗ S⁻¹, Δx = K res,
  Pʹ = (I − K H) P (I − K H)ᵗ + K R Kᵗ   (Joseph form).

`DimensionMismatch` when the construction-time validation failed,
`SingularInnovation` when `S` is not invertible (its determinant vanishes);
on either failure the snapshot is returned to the caller untouched. -/
def calculateCorrection {n m : Nat} (ci : CorrectionInputs n m) (snap : Snapshot n) :
    Except MeasurementError (Snapshot n) :=
  if ci.dimsValid = false then .error .dimensionMismatch
  else
    let S : Matrix (Fin m) (Fin m) ℚ := ci.H * snap.P * ci.H.transpose + ci.R
    if S.det = 0 then .error .singularInnovation
    else
      let Sinv : Matrix (Fin m) (Fin m) ℚ := S.det⁻¹ • S.adjugate
      let K : Matrix (Fin n) (Fin m) ℚ := snap.P * ci.H.transpose * Sinv
      let A : Matrix (Fin n) (Fin n) ℚ := 1 - K * ci.H
      .ok
        { time := snap.time
          x := fun i => snap.x i + K.mulVec ci.res i
          P := A * snap.P * A.transpose + K * ci.R * K.transpose }

/-- Modelled from the spec: applying one sensor measurement with timestamp
`t` to the retained snapshot history (spec section 4.3). The buffer is the
StateHistoryBuffer's window, ordered by snapshot time, most recent (head)
last. If `t` is at or after the head time the correction targets the head
snapshot. Otherwise the nearest snapshot at or before `t` is located — the
last element of the prefix of snapshots with time ≤ `t` — and, when none
exists in the window (or the window is empty), the attempt fails with
`TooOld`; when the correction at the target succeeds, every snapshot strictly
after the target is re-propagated through the context's `reapplyFrom` hook
(passed here as `reapply`). Every failure returns the buffer unchanged. -/
def applyMeasurement {n m : Nat} (t : ℚ) (ci : CorrectionInputs n m)
    (reapply : Snapshot n → Snapshot n) (buf : List (Snapshot n)) :
    List (Snapshot n) × Option MeasurementError :=
  match buf.getLast? with
  | none => (buf, some .tooOld)
  | some headSnap =>
    if headSnap.time ≤ t then
      match calculateCorrection ci headSnap with
      | .error e => (buf, some e)
      | .ok c => (buf.dropLast ++ [c], none)
    else
      let pre := buf.takeWhile (fun s => s.time ≤ t)
      let post := buf.dropWhile (fun s => s.time ≤ t)
      match pre.getLast? with
      | none => (buf, some .tooOld)
      | some target =>
        match calculateCorrection ci target with
        | .error e => (buf, some e)
        | .ok c => (pre.dropLast ++ c :: post.map reapply, none)

/-- Modelled from the spec: `MSF_InitMeasurement::apply` (declared at header
line 160, implementation not among the sources; spec section 4.5): for every
state component whose `hasResetValue` flag is set, overwrite the
corresponding entry of the snapshot's state vector with the stored init
value, and clear that component's covariance row and column to the configured
initial uncertainty; components whose flag is clear are not touched. -/
def initMeasurementApply {N : Nat} (meas : MSF_InitMeasurement N)
    (initialUncertainty : Matrix (Fin N) (Fin N) ℚ) (s : Snapshot N) : Snapshot N :=
  { time := s.time
    x := fun i =>
      if (meas.InitState.vars i).hasResetValue then (meas.InitState.vars i).state_
      else s.x i
    P := Matrix.of fun i j =>
      if (meas.InitState.vars i).hasResetValue ∨ (meas.InitState.vars j).hasResetValue then
        initialUncertainty i j
      else s.P i j }

/-- A concrete one-dimensional snapshot used to instantiate theorems. -/
def snap0 : Snapshot 1 :=
  { time := 0, x := fun _ => 0, P := 1 }

/-- A concrete freshly-constructed `MSF_InitMeasurement` over one state
variable: no value set, no flag set. -/
def initMeas0 : MSF_InitMeasurement 1 :=
  { InitState := { vars := fun _ => ⟨0, false⟩, P_ := 0, w_m_ := fun _ => 0, a_m_ := fun _ => 0 }
    ContainsInitialSensorReadings_ := false
    time_ := 0 }

/-- A concrete already-constructed sensor measurement with `time_ = 1`. -/
def meas0 : MSF_Measurement 1 :=
  { time_ := 1, R_ := 1 }

/-- C5 counterexample: `MSF_InvalidMeasurement::apply` returns `void` — its
embedding signals no error value at all (`err = none`), so it does not return
an `Invalid`-measurement error result; it only writes the log line. -/
theorem invalidMeasurementApply_no_error_result_cex :
    (invalidMeasurementApply snap0 () []).err = none ∧
    (invalidMeasurementApply snap0 () []).err ≠ some MeasurementError.invalid := by
  exact ⟨rfl, by decide⟩

/-- C5 (amended): `MSF_InvalidMeasurement::apply` reports the invalid
measurement through the error logger and leaves the snapshot's state,
covariance and the core completely unchanged; it returns no error value. -/
theorem invalidMeasurementApply_logs_and_leaves_everything_unchanged
    {n : Nat} {Core : Type} (s : Snapshot n) (core : Core) (log : List String) :
    (invalidMeasurementApply s core log).state = s ∧
    (invalidMeasurementApply s core log).core = core ∧
    (invalidMeasurementApply s core log).log = log ++ [invalidApplyMsg] ∧
    (invalidMeasurementApply s core log).err = none :=
  ⟨rfl, rfl, rfl, rfl⟩

/-- C6 counterexample: after `setStateInitValue` has flagged component 0, a
second `setStateInitValue` on the same component — with no intervening
`resetStateInitValue` — is permitted and takes effect: the stored value
changes from 5 to 7 and the flag stays set. -/
theorem setStateInitValue_twice_without_reset_cex :
    (getStateInitValue (setStateInitValue initMeas0 0 5) 0).hasResetValue = true ∧
    getStateInitValue (setStateInitValue (setStateInitValue initMeas0 0 5) 0 7) 0
      = ⟨7, true⟩ ∧
    (7 : ℚ) ≠ 5 := by
  decide

/-- C6 (amended): `setStateInitValue` stores the value and sets the
component's "has initial value" flag unconditionally; the flag is set only by
this setter and cleared only by `resetStateInitValue`, but a second set on an
already-flagged component is permitted before any reset and simply
overwrites: setting twice equals setting once with the later value. -/
theorem setStateInitValue_unconditional_overwrite
    {N : Nat} (meas : MSF_InitMeasurement N) (i : Fin N) (v w : ℚ) :
    getStateInitValue (setStateInitValue meas i v) i = ⟨v, true⟩ ∧
    setStateInitValue (setStateInitValue meas i v) i w = setStateInitValue meas i w := by
  constructor
  · simp [getStateInitValue, setStateInitValue]
  · simp [setStateInitValue, Function.update_idem]

/-- C7 counterexample: component 0 of a fresh `MSF_InitMeasurement` has its
flag clear, yet `getStateInitValue` does not fail with `NotSet`: it returns
the stored state variable (the body performs no flag check and has no error
path). -/
theorem getStateInitValue_without_flag_cex :
    (getStateInitValue initMeas0 0).hasResetValue = false ∧
    getStateInitValue initMeas0 0 = ⟨0, false⟩ := by
  decide

/-- C7 (amended): `getStateInitValue` returns the stored state variable
unconditionally, whether or not the "has initial value" flag is set: after a
set followed by a reset (flag clear) it still returns the last written value
rather than failing. -/
theorem getStateInitValue_returns_stored_value
    {N : Nat} (meas : MSF_InitMeasurement N) (i : Fin N) (v : ℚ) :
    getStateInitValue (resetStateInitValue (setStateInitValue meas i v) i) i
      = ⟨v, false⟩ := by
  simp [getStateInitValue, resetStateInitValue, setStateInitValue, Function.update_idem]

/-- C9: `resetStateInitValue` is idempotent — clearing twice equals clearing
once — and does not change the stored component value: in general the stored
value survives a clear, and in particular the last value written by
`setStateInitValue` is still stored after the clear. -/
theorem resetStateInitValue_idempotent_and_keeps_value
    {N : Nat} (meas : MSF_InitMeasurement N) (i : Fin N) (v : ℚ) :
    resetStateInitValue (resetStateInitValue meas i) i = resetStateInitValue meas i ∧
    (getStateInitValue (resetStateInitValue meas i) i).state_
      = (getStateInitValue meas i).state_ ∧
    (getStateInitValue (resetStateInitValue (setStateInitValue meas i v) i) i).state_
      = v := by
  refine ⟨?_, ?_, ?_⟩
  · simp [resetStateInitValue, Function.update_idem]
  · simp [getStateInitValue, resetStateInitValue]
  · simp [getStateInitValue, resetStateInitValue, setStateInitValue, Function.update_idem]

/-- C10 counterexample: a measurement is not immutable once constructed:
`makeFromSensorReading`, called on the already-constructed `meas0` whose
timestamp is 1, changes its timestamp to 2. -/
theorem measurement_mutable_after_construction_cex :
    meas0.time_ = 1 ∧
    (makeFromSensorReading (fun (_ : Unit) s => s) meas0 () 2).time_ = 2 ∧
    (2 : ℚ) ≠ 1 := by
  decide

/-- C10 (amended): measurements are mutable after construction:
`makeFromSensorReading` overwrites the stored timestamp with the supplied one
(whenever the sensor-specific conversion hook leaves `time_` alone, the final
timestamp is exactly the supplied one), and `setStateInitValue` mutates an
`InitMeasurement`'s payload component in place. -/
theorem makeFromSensorReading_sets_time
    {T : Type} {msize : Nat} (impl : T → MSF_Measurement msize → MSF_Measurement msize)
    (meas : MSF_Measurement msize) (reading : T) (timestamp : ℚ)
    (himpl : ∀ r s, (impl r s).time_ = s.time_) :
    (makeFromSensorReading impl meas reading timestamp).time_ = timestamp ∧
    ∀ {N : Nat} (im : MSF_InitMeasurement N) (i : Fin N) (v : ℚ),
      (setStateInitValue im i v).InitState.vars i = ⟨v, true⟩ := by
  constructor
  · rw [makeFromSensorReading, himpl]
  · intro N im i v
    simp [setStateInitValue]

/-- C10 witness: the amended theorem applied to the concrete measurement
`meas0`, an identity conversion hook and timestamp 2. -/
theorem makeFromSensorReading_sets_time_witness :
    (makeFromSensorReading (fun (_ : Unit) s => s) meas0 () 2).time_ = 2 :=
  (makeFromSensorReading_sets_time (fun (_ : Unit) s => s) meas0 () 2
    (fun _ _ => rfl)).1

/-- Lexicographic order the scheduler establishes: earlier timestamp first,
ties broken by enqueue sequence number. -/
def schedLex (a b : SchedMeas) : Prop :=
  a.time_ < b.time_ ∨ (a.time_ = b.time_ ∧ a.seq < b.seq)

theorem enqueue_perm (m : SchedMeas) (q : List SchedMeas) :
    (enqueue m q).Perm (m :: q) := by
  induction q with
  | nil => simp [enqueue]
  | cons h t ih =>
    by_cases hc : sortMeasurements m h = true
    · simp [enqueue, hc]
    · simp only [enqueue, hc, if_false, Bool.false_eq_true]
      exact (ih.cons h).trans (List.Perm.swap m h t)

theorem enqueue_pairwise (m : SchedMeas) (q : List SchedMeas)
    (hq : q.Pairwise schedLex) (hseq : ∀ x ∈ q, x.seq < m.seq) :
    (enqueue m q).Pairwise schedLex := by
  induction q with
  | nil => simp [enqueue]
  | cons h t ih =>
    rcases List.pairwise_cons.mp hq with ⟨hh, ht⟩
    by_cases hc : sortMeasurements m h = true
    · have hmh : m.time_ < h.time_ := by simpa [sortMeasurements] using hc
      simp only [enqueue, hc, if_true]
      refine List.pairwise_cons.mpr ⟨?_, hq⟩
      intro x hx
      rcases List.mem_cons.mp hx with rfl | hx2
      · exact Or.inl hmh
      · rcases hh x hx2 with hlt | ⟨heq, _⟩
        · exact Or.inl (hmh.trans hlt)
        · exact Or.inl (heq ▸ hmh)
    · have hle : h.time_ ≤ m.time_ := by
        simpa [sortMeasurements, not_lt] using hc
      simp only [enqueue, hc, if_false, Bool.false_eq_true]
      refine List.pairwise_cons.mpr
        ⟨?_, ih ht (fun x hx => hseq x (List.mem_cons_of_mem h hx))⟩
      intro x hx
      rcases List.mem_cons.mp ((enqueue_perm m t).mem_iff.mp hx) with rfl | hx2
      · rcases lt_or_eq_of_le hle with h1 | h2
        · exact Or.inl h1
        · exact Or.inr ⟨h2, hseq h (List.mem_cons_self h t)⟩
      · exact hh x hx2

theorem foldl_enqueue_perm (ms : List SchedMeas) :
    ∀ q : List SchedMeas, (ms.foldl (fun acc m => enqueue m acc) q).Perm (q ++ ms) := by
  induction ms with
  | nil => intro q; simp
  | cons m t ih =>
    intro q
    have h1 : ((m :: t).foldl (fun acc x => enqueue x acc) q).Perm (enqueue m q ++ t) :=
      ih (enqueue m q)
    have h2 : (enqueue m q ++ t).Perm ((m :: q) ++ t) :=
      (enqueue_perm m q).append_right t
    have h3 : (q ++ m :: t).Perm (m :: (q ++ t)) := List.perm_middle
    exact (h1.trans h2).trans h3.symm

theorem foldl_enqueue_pairwise (ms : List SchedMeas) :
    ∀ q : List SchedMeas, q.Pairwise schedLex →
      (∀ x ∈ q, ∀ y ∈ ms, x.seq < y.seq) →
      ms.Pairwise (fun a b => a.seq < b.seq) →
      (ms.foldl (fun acc m => enqueue m acc) q).Pairwise schedLex := by
  induction ms with
  | nil => intro q hq _ _; simpa using hq
  | cons m t ih =>
    intro q hq hqs hms
    rcases List.pairwise_cons.mp hms with ⟨hmt, ht⟩
    refine ih (enqueue m q) ?_ ?_ ht
    · exact enqueue_pairwise m q hq (fun x hx => hqs x hx m (List.mem_cons_self m t))
    · intro x hx y hy
      rcases List.mem_cons.mp ((enqueue_perm m q).mem_iff.mp hx) with rfl | hx2
      · exact hmt y hy
      · exact hqs x hx2 y (List.mem_cons_of_mem m hy)

/-- C4: for any finite batch of measurements — tagged with strictly
increasing enqueue sequence numbers recording the order in which they were
enqueued — the scheduler queue built through the `sortMeasurements`
comparator yields exactly the enqueued measurements (a permutation), in
ascending `time_` order, and any two measurements with equal timestamps come
out in their enqueue order. -/
theorem scheduler_yields_time_sorted_stable (ms : List SchedMeas)
    (henq : ms.Pairwise (fun a b => a.seq < b.seq)) :
    (scheduleAll ms).Perm ms ∧
    (scheduleAll ms).Pairwise (fun a b => a.time_ ≤ b.time_) ∧
    (scheduleAll ms).Pairwise (fun a b => a.time_ = b.time_ → a.seq < b.seq) := by
  have hperm : (scheduleAll ms).Perm ms := by
    simpa [scheduleAll] using foldl_enqueue_perm ms []
  have hpair : (scheduleAll ms).Pairwise schedLex :=
    foldl_enqueue_pairwise ms [] (by simp) (by simp) henq
  refine ⟨hperm, hpair.imp ?_, hpair.imp ?_⟩
  · intro a b hab
    rcases hab with h | ⟨h, _⟩
    · exact le_of_lt h
    · exact le_of_eq h
  · intro a b hab heq
    rcases hab with h | ⟨_, h2⟩
    · exact absurd (heq ▸ h) (lt_irrefl _)
    · exact h2

/-- Concrete enqueue batch: times 1, 3, 2, 2 with enqueue order 0, 1, 2, 3. -/
def ms0 : List SchedMeas :=
  [⟨1, 0⟩, ⟨3, 1⟩, ⟨2, 2⟩, ⟨2, 3⟩]

/-- C4 witness: the scheduler theorem applied to the concrete batch `ms0`. -/
theorem scheduler_yields_time_sorted_stable_witness :
    (scheduleAll ms0).Perm ms0 ∧
    (scheduleAll ms0).Pairwise (fun a b => a.time_ ≤ b.time_) ∧
    (scheduleAll ms0).Pairwise (fun a b => a.time_ = b.time_ → a.seq < b.seq) :=
  scheduler_yields_time_sorted_stable ms0 (by decide)

/-- Correction inputs whose construction-time dimension validation failed. -/
def ciBad : CorrectionInputs 1 1 :=
  { H := 1, res := fun _ => 0, R := 1, dimsValid := false }

/-- C2: atomicity of a failed correction: whenever applying a measurement
fails — with `DimensionMismatch`, `SingularInnovation`, `TooOld` or any other
error — the snapshot history (in particular the targeted snapshot's state
vector and covariance) is returned exactly as it was before the attempt. -/
theorem failed_correction_is_atomic {n m : Nat} (t : ℚ) (ci : CorrectionInputs n m)
    (reapply : Snapshot n → Snapshot n) (buf newBuf : List (Snapshot n))
    (e : MeasurementError)
    (h : applyMeasurement t ci reapply buf = (newBuf, some e)) :
    newBuf = buf := by
  unfold applyMeasurement at h
  dsimp only at h
  split at h
  · exact (congrArg Prod.fst h).symm
  · split at h
    · split at h
      · exact (congrArg Prod.fst h).symm
      · exact absurd (congrArg Prod.snd h) (by simp)
    · split at h
      · exact (congrArg Prod.fst h).symm
      · split at h
        · exact (congrArg Prod.fst h).symm
        · exact absurd (congrArg Prod.snd h) (by simp)

/-- C2 witness: the dimension-mismatch failure on the concrete one-snapshot
history leaves the history unchanged. -/
theorem failed_correction_is_atomic_witness :
    applyMeasurement 5 ciBad id [snap0] = ([snap0], some MeasurementError.dimensionMismatch) ∧
    ([snap0] : List (Snapshot 1)) = [snap0] :=
  ⟨by decide,
   failed_correction_is_atomic 5 ciBad id [snap0] [snap0]
     MeasurementError.dimensionMismatch (by decide)⟩

/-- Symmetry of a square rational matrix. -/
def qSymm {k : Nat} (M : Matrix (Fin k) (Fin k) ℚ) : Prop :=
  M.transpose = M

/-- Positive semi-definiteness of a square rational matrix, as nonnegativity
of the associated quadratic form. -/
def qPSD {k : Nat} (M : Matrix (Fin k) (Fin k) ℚ) : Prop :=
  ∀ v : Fin k → ℚ, 0 ≤ Matrix.dotProduct v (M.mulVec v)

theorem qSymm_conj {k l : Nat} (A : Matrix (Fin k) (Fin l) ℚ)
    (P : Matrix (Fin l) (Fin l) ℚ) (hP : qSymm P) :
    qSymm (A * P * A.transpose) := by
  unfold qSymm at hP ⊢
  rw [Matrix.transpose_mul, Matrix.transpose_mul, Matrix.transpose_transpose, hP,
    Matrix.mul_assoc]

theorem qPSD_conj {k l : Nat} (A : Matrix (Fin k) (Fin l) ℚ)
    (P : Matrix (Fin l) (Fin l) ℚ) (hP : qPSD P) :
    qPSD (A * P * A.transpose) := by
  intro v
  have h1 : (A * P * A.transpose).mulVec v
      = A.mulVec (P.mulVec (A.transpose.mulVec v)) := by
    rw [Matrix.mulVec_mulVec, Matrix.mulVec_mulVec]
  rw [h1, Matrix.dotProduct_mulVec, ← Matrix.mulVec_transpose]
  exact hP _

theorem qSymm_add {k : Nat} (M N : Matrix (Fin k) (Fin k) ℚ)
    (hM : qSymm M) (hN : qSymm N) : qSymm (M + N) := by
  unfold qSymm at hM hN ⊢
  rw [Matrix.transpose_add, hM, hN]

theorem qPSD_add {k : Nat} (M N : Matrix (Fin k) (Fin k) ℚ)
    (hM : qPSD M) (hN : qPSD N) : qPSD (M + N) := by
  intro v
  rw [Matrix.add_mulVec, Matrix.dotProduct_add]
  exact add_nonneg (hM v) (hN v)

theorem qPSD_one {k : Nat} : qPSD (1 : Matrix (Fin k) (Fin k) ℚ) := by
  intro v
  rw [Matrix.one_mulVec]
  unfold Matrix.dotProduct
  exact Finset.sum_nonneg fun i _ => mul_self_nonneg (v i)

/-- C3: after every successful correction the snapshot's covariance is
symmetric and positive semi-definite: the engine's Joseph stabilized form
`Pʹ = (I − K H) P (I − K H)ᵗ + K R Kᵗ` preserves symmetry and positive
semi-definiteness of the covariance for any gain `K`, given a symmetric
positive semi-definite prior covariance and noise covariance. -/
theorem correction_covariance_symm_psd {n m : Nat} (ci : CorrectionInputs n m)
    (snap newSnap : Snapshot n)
    (hP : qSymm snap.P) (hPpsd : qPSD snap.P)
    (hR : qSymm ci.R) (hRpsd : qPSD ci.R)
    (h : calculateCorrection ci snap = .ok newSnap) :
    qSymm newSnap.P ∧ qPSD newSnap.P := by
  unfold calculateCorrection at h
  dsimp only at h
  split at h
  · exact absurd h (by simp)
  · split at h
    · exact absurd h (by simp)
    · injection h with h1
      subst h1
      constructor
      · exact qSymm_add _ _ (qSymm_conj _ _ hP) (qSymm_conj _ _ hR)
      · exact qPSD_add _ _ (qPSD_conj _ _ hPpsd) (qPSD_conj _ _ hRpsd)

/-- Concrete valid correction inputs: scalar measurement with unit Jacobian
and unit noise covariance. -/
def ciGood : CorrectionInputs 1 1 :=
  { H := 1, res := fun _ => 1, R := 1, dimsValid := true }

/-- The snapshot produced by correcting `snap0` with `ciGood`: state `1/2`,
covariance `1/2`. -/
def snapC : Snapshot 1 :=
  { time := 0, x := fun _ => 1/2, P := Matrix.of fun _ _ => 1/2 }

theorem calculateCorrection_ciGood_eval : calculateCorrection ciGood snap0 = .ok snapC := by
  rw [calculateCorrection]
  rw [if_neg (by decide)]
  dsimp only
  have hS : ciGood.H * snap0.P * ciGood.H.transpose + ciGood.R
      = Matrix.of fun (_ _ : Fin 1) => (2 : ℚ) := by
    ext i j
    fin_cases i; fin_cases j
    norm_num [ciGood, snap0, Matrix.mul_apply, Fin.sum_univ_one, Matrix.one_apply]
  rw [hS]
  rw [if_neg (by rw [Matrix.det_fin_one]; norm_num)]
  have hK : snap0.P * ciGood.H.transpose *
      ((Matrix.of fun (_ _ : Fin 1) => (2 : ℚ)).det⁻¹ •
        (Matrix.of fun (_ _ : Fin 1) => (2 : ℚ)).adjugate)
      = Matrix.of fun (_ _ : Fin 1) => (2 : ℚ)⁻¹ := by
    rw [Matrix.adjugate_fin_one, Matrix.det_fin_one]
    ext i j
    fin_cases i; fin_cases j
    norm_num [ciGood, snap0, Matrix.mul_apply, Fin.sum_univ_one, Matrix.one_apply,
      Matrix.smul_apply]
  rw [hK]
  refine congrArg Except.ok ?_
  have hx : (fun i => snap0.x i + (Matrix.of fun (_ _ : Fin 1) => (2 : ℚ)⁻¹).mulVec ciGood.res i)
      = fun _ => (1 : ℚ)/2 := by
    funext i
    fin_cases i
    norm_num [snap0, ciGood, Matrix.mulVec, Matrix.dotProduct, Fin.sum_univ_one]
  have hA : (1 - (Matrix.of fun (_ _ : Fin 1) => (2 : ℚ)⁻¹) * ciGood.H)
      = Matrix.of fun (_ _ : Fin 1) => (2 : ℚ)⁻¹ := by
    ext i j
    fin_cases i; fin_cases j
    norm_num [ciGood, Matrix.mul_apply, Fin.sum_univ_one, Matrix.one_apply, Matrix.sub_apply]
  rw [hA]
  have hP : (Matrix.of fun (_ _ : Fin 1) => (2 : ℚ)⁻¹) * snap0.P *
        (Matrix.of fun (_ _ : Fin 1) => (2 : ℚ)⁻¹).transpose
      + (Matrix.of fun (_ _ : Fin 1) => (2 : ℚ)⁻¹) * ciGood.R *
        (Matrix.of fun (_ _ : Fin 1) => (2 : ℚ)⁻¹).transpose
      = Matrix.of fun (_ _ : Fin 1) => (1 : ℚ)/2 := by
    ext i j
    fin_cases i; fin_cases j
    norm_num [ciGood, snap0, Matrix.mul_apply, Fin.sum_univ_one, Matrix.one_apply,
      Matrix.transpose_apply, Matrix.add_apply]
  rw [snapC, hx, hP]
  rfl

/-- C3 witness: the concrete successful correction of `snap0` by `ciGood`
(unit prior covariance, unit Jacobian, unit noise) produces the covariance
`1/2`, which the theorem shows symmetric and positive semi-definite. -/
theorem correction_covariance_symm_psd_witness : qSymm snapC.P ∧ qPSD snapC.P :=
  correction_covariance_symm_psd ciGood snap0 snapC (by unfold qSymm; decide) qPSD_one
    (by unfold qSymm; decide) qPSD_one calculateCorrection_ciGood_eval

/-- Concrete valid correction inputs with zero Jacobian: the gain vanishes
and a successful correction returns any snapshot unchanged. -/
def ciZero : CorrectionInputs 1 1 :=
  { H := 0, res := fun _ => 1, R := 1, dimsValid := true }

theorem calculateCorrection_ciZero_eval (snap : Snapshot 1) :
    calculateCorrection ciZero snap = .ok snap := by
  rw [calculateCorrection]
  simp [ciZero, Matrix.det_one, Matrix.adjugate_one]

theorem mem_of_getLast {α : Type} (l : List α) (x : α) (h : l.getLast? = some x) :
    x ∈ l := by
  rcases List.mem_getLast?_eq_getLast h with ⟨hne, rfl⟩
  exact List.getLast_mem hne

theorem sorted_le_getLast {n : Nat} :
    ∀ l : List (Snapshot n), l.Pairwise (fun a b => a.time ≤ b.time) →
      ∀ x : Snapshot n, l.getLast? = some x → ∀ s ∈ l, s.time ≤ x.time := by
  intro l
  induction l with
  | nil => intro _ x hx; simp at hx
  | cons b rest ih =>
    intro hs x hx s hsmem
    rcases List.pairwise_cons.mp hs with ⟨hb, hrest⟩
    cases rest with
    | nil =>
      have hxb : x = b := by simpa using hx.symm
      have hsb : s = b := by simpa using hsmem
      rw [hxb, hsb]
    | cons c rest2 =>
      rw [List.getLast?_cons_cons] at hx
      rcases List.mem_cons.mp hsmem with rfl | hsmem2
      · exact hb x (mem_of_getLast _ x hx)
      · exact ih hrest x hx s hsmem2

theorem sorted_dropWhile_gt {n : Nat} (t : ℚ) :
    ∀ l : List (Snapshot n), l.Pairwise (fun a b => a.time ≤ b.time) →
      ∀ s ∈ l.dropWhile (fun s => decide (s.time ≤ t)), t < s.time := by
  intro l
  induction l with
  | nil => intro _ s hs; simp at hs
  | cons b rest ih =>
    intro hs s hsmem
    rcases List.pairwise_cons.mp hs with ⟨hb, hrest⟩
    rw [List.dropWhile_cons] at hsmem
    by_cases hbt : b.time ≤ t
    · rw [if_pos (by simpa using hbt)] at hsmem
      exact ih hrest s hsmem
    · rw [if_neg (by simpa using hbt)] at hsmem
      have hbt2 : t < b.time := not_le.mp hbt
      rcases List.mem_cons.mp hsmem with rfl | hm2
      · exact hbt2
      · exact lt_of_lt_of_le hbt2 (hb s hm2)

theorem calculateCorrection_ne_tooOld {n m : Nat} (ci : CorrectionInputs n m)
    (snap : Snapshot n) :
    calculateCorrection ci snap ≠ .error MeasurementError.tooOld := by
  unfold calculateCorrection
  dsimp only
  split
  · exact fun h => MeasurementError.noConfusion (Except.error.inj h)
  · split
    · exact fun h => MeasurementError.noConfusion (Except.error.inj h)
    · exact fun h => Except.noConfusion h

theorem applyMeasurement_delayed_shape {n m : Nat} (t : ℚ) (ci : CorrectionInputs n m)
    (reapply : Snapshot n → Snapshot n) (buf : List (Snapshot n)) (headSnap : Snapshot n)
    (hlast : buf.getLast? = some headSnap) (ht : t < headSnap.time) :
    applyMeasurement t ci reapply buf =
      match (buf.takeWhile fun s => decide (s.time ≤ t)).getLast? with
      | none => (buf, some MeasurementError.tooOld)
      | some target =>
        match calculateCorrection ci target with
        | .error e => (buf, some e)
        | .ok c =>
          ((buf.takeWhile fun s => decide (s.time ≤ t)).dropLast
            ++ c :: (buf.dropWhile fun s => decide (s.time ≤ t)).map reapply, none) := by
  unfold applyMeasurement
  rw [hlast]
  dsimp only
  rw [if_neg (not_le.mpr ht)]

/-- C1: for a measurement whose timestamp `t` is strictly before the head
snapshot's time, `applyMeasurement` fails with `TooOld` exactly when no
retained snapshot lies at or before `t`; and whenever the nearest snapshot at
or before `t` exists, it is the latest retained snapshot with time ≤ t (it
belongs to the buffer, its time is ≤ t, and no retained snapshot at or before
`t` is later), every snapshot strictly after it has time > t, and a
successful correction at it yields the buffer with that snapshot corrected
and every later snapshot re-propagated through the `reapplyFrom` hook. -/
theorem delayed_measurement_resolution {n m : Nat} (t : ℚ) (ci : CorrectionInputs n m)
    (reapply : Snapshot n → Snapshot n) (buf : List (Snapshot n)) (headSnap : Snapshot n)
    (hsorted : buf.Pairwise (fun a b => a.time ≤ b.time))
    (hlast : buf.getLast? = some headSnap)
    (ht : t < headSnap.time) :
    (applyMeasurement t ci reapply buf = (buf, some MeasurementError.tooOld)
        ↔ ∀ s ∈ buf, t < s.time) ∧
    (∀ target, (buf.takeWhile fun s => decide (s.time ≤ t)).getLast? = some target →
        target ∈ buf ∧ target.time ≤ t ∧
        (∀ s ∈ buf, s.time ≤ t → s.time ≤ target.time) ∧
        (∀ s ∈ buf.dropWhile fun s => decide (s.time ≤ t), t < s.time) ∧
        ∀ c, calculateCorrection ci target = .ok c →
          applyMeasurement t ci reapply buf =
            ((buf.takeWhile fun s => decide (s.time ≤ t)).dropLast
              ++ c :: (buf.dropWhile fun s => decide (s.time ≤ t)).map reapply, none)) := by
  have hshape := applyMeasurement_delayed_shape t ci reapply buf headSnap hlast ht
  constructor
  · constructor
    · intro hres
      rw [hshape] at hres
      rcases hopt : (buf.takeWhile fun s => decide (s.time ≤ t)).getLast? with _ | target
      · have hpre2 : buf.takeWhile (fun s => decide (s.time ≤ t)) = [] :=
          List.getLast?_eq_none_iff.mp hopt
        intro s hs
        cases buf with
        | nil => simp at hs
        | cons b rest =>
          rw [List.takeWhile_cons] at hpre2
          by_cases hbt : b.time ≤ t
          · rw [if_pos (by simpa using hbt)] at hpre2
            cases hpre2
          · have hbt2 : t < b.time := not_le.mp hbt
            rcases List.mem_cons.mp hs with rfl | hs2
            · exact hbt2
            · exact lt_of_lt_of_le hbt2 ((List.pairwise_cons.mp hsorted).1 s hs2)
      · rw [hopt] at hres
        dsimp only at hres
        rcases hcorr : calculateCorrection ci target with e | c
        · rw [hcorr] at hres
          dsimp only at hres
          have he : e = MeasurementError.tooOld := by
            have h2 := congrArg Prod.snd hres
            simpa using h2
          exact absurd (he ▸ hcorr) (calculateCorrection_ne_tooOld ci target)
        · rw [hcorr] at hres
          dsimp only at hres
          exact absurd (congrArg Prod.snd hres) (by simp)
    · intro hall
      rw [hshape]
      have hpre2 : buf.takeWhile (fun s => decide (s.time ≤ t)) = [] := by
        cases hb : buf with
        | nil => rfl
        | cons b rest =>
          have hbmem : b ∈ buf := by rw [hb]; exact List.mem_cons_self b rest
          have hbt : t < b.time := hall b hbmem
          rw [List.takeWhile_cons, if_neg (by simpa using not_le.mpr hbt)]
      rw [hpre2]
      rfl
  · intro target hpre
    have htmem : target ∈ buf.takeWhile (fun s => decide (s.time ≤ t)) :=
      mem_of_getLast _ _ hpre
    have htmem2 : target ∈ buf := (List.takeWhile_sublist _).subset htmem
    have htle : target.time ≤ t :=
      of_decide_eq_true
        (List.mem_takeWhile_imp (p := fun s : Snapshot n => decide (s.time ≤ t)) htmem)
    refine ⟨htmem2, htle, ?_, ?_, ?_⟩
    · intro s hs hsle
      have hsmem : s ∈ buf.takeWhile (fun s => decide (s.time ≤ t))
          ++ buf.dropWhile (fun s => decide (s.time ≤ t)) := by
        rw [List.takeWhile_append_dropWhile]
        exact hs
      rcases List.mem_append.mp hsmem with h1 | h2
      · exact sorted_le_getLast _ (hsorted.sublist (List.takeWhile_sublist _)) target hpre s h1
      · exact absurd hsle (not_le.mpr (sorted_dropWhile_gt t buf hsorted s h2))
    · exact fun s hs => sorted_dropWhile_gt t buf hsorted s hs
    · intro c hcorr
      rw [hshape, hpre]
      dsimp only
      rw [hcorr]

/-- Concrete retained history: snapshots at times 1, 2 and 3 (head). -/
def s1 : Snapshot 1 :=
  { time := 1, x := fun _ => 10, P := 1 }

/-- Snapshot at time 2, the correction target of the delayed measurement. -/
def s2 : Snapshot 1 :=
  { time := 2, x := fun _ => 20, P := 1 }

/-- Head snapshot at time 3. -/
def s3 : Snapshot 1 :=
  { time := 3, x := fun _ => 30, P := 1 }

/-- The concrete three-snapshot retained window. -/
def buf3 : List (Snapshot 1) :=
  [s1, s2, s3]

/-- A concrete re-propagation hook that visibly rewrites the state. -/
def reapplyW : Snapshot 1 → Snapshot 1 :=
  fun s => { s with x := fun _ => 99 }

/-- C1 witness: a measurement at time 2 — strictly before the head time 3 —
is applied to the retained snapshot at time 2, and the head snapshot gets
re-propagated through the hook. -/
theorem delayed_measurement_resolution_witness :
    applyMeasurement 2 ciZero reapplyW buf3
      = ((buf3.takeWhile fun s => decide (s.time ≤ 2)).dropLast
          ++ s2 :: (buf3.dropWhile fun s => decide (s.time ≤ 2)).map reapplyW, none) :=
  ((delayed_measurement_resolution 2 ciZero reapplyW buf3 s3 (by decide) (by decide)
      (by decide)).2 s2 (by decide)).2.2.2.2 s2 (calculateCorrection_ciZero_eval s2)

/-- C8: two `InitMeasurement`s flagging disjoint component sets commute:
applying both in either order yields the same snapshot, in which each flagged
component holds the value set on the measurement that flagged it and every
component flagged by neither measurement keeps its original value. -/
theorem initMeasurement_disjoint_commutes {N : Nat} (A B : MSF_InitMeasurement N)
    (u : Matrix (Fin N) (Fin N) ℚ) (s : Snapshot N)
    (hdisj : ∀ i, ¬((A.InitState.vars i).hasResetValue = true ∧
        (B.InitState.vars i).hasResetValue = true)) :
    initMeasurementApply B u (initMeasurementApply A u s)
        = initMeasurementApply A u (initMeasurementApply B u s) ∧
    (∀ i, (A.InitState.vars i).hasResetValue = true →
        (initMeasurementApply B u (initMeasurementApply A u s)).x i
          = (A.InitState.vars i).state_) ∧
    (∀ i, (B.InitState.vars i).hasResetValue = true →
        (initMeasurementApply B u (initMeasurementApply A u s)).x i
          = (B.InitState.vars i).state_) ∧
    (∀ i, (A.InitState.vars i).hasResetValue = false →
        (B.InitState.vars i).hasResetValue = false →
        (initMeasurementApply B u (initMeasurementApply A u s)).x i = s.x i) := by
  refine ⟨?_, ?_, ?_, ?_⟩
  · unfold initMeasurementApply
    dsimp only
    rw [Snapshot.mk.injEq]
    refine ⟨rfl, funext fun i => ?_, ?_⟩
    · have hd := hdisj i
      cases hA : (A.InitState.vars i).hasResetValue <;>
        cases hB : (B.InitState.vars i).hasResetValue <;>
        simp [hA, hB] at hd ⊢
    · ext i j
      cases hAi : (A.InitState.vars i).hasResetValue <;>
        cases hAj : (A.InitState.vars j).hasResetValue <;>
        cases hBi : (B.InitState.vars i).hasResetValue <;>
        cases hBj : (B.InitState.vars j).hasResetValue <;>
        simp [hAi, hAj, hBi, hBj]
  · intro i hA
    have hB : (B.InitState.vars i).hasResetValue = false := by
      cases hBv : (B.InitState.vars i).hasResetValue
      · rfl
      · exact absurd ⟨hA, hBv⟩ (hdisj i)
    simp [initMeasurementApply, hA, hB]
  · intro i hB
    simp [initMeasurementApply, hB]
  · intro i hA hB
    simp [initMeasurementApply, hA, hB]

/-- An `InitMeasurement` flagging only component 0 (value 3) of a
two-component state. -/
def initA : MSF_InitMeasurement 2 :=
  { InitState :=
      { vars := fun i => if i = 0 then ⟨3, true⟩ else ⟨0, false⟩
        P_ := 0, w_m_ := fun _ => 0, a_m_ := fun _ => 0 }
    ContainsInitialSensorReadings_ := false
    time_ := 0 }

/-- An `InitMeasurement` flagging only component 1 (value 4) of a
two-component state. -/
def initB : MSF_InitMeasurement 2 :=
  { InitState :=
      { vars := fun i => if i = 1 then ⟨4, true⟩ else ⟨0, false⟩
        P_ := 0, w_m_ := fun _ => 0, a_m_ := fun _ => 0 }
    ContainsInitialSensorReadings_ := false
    time_ := 0 }

/-- A concrete two-component snapshot. -/
def sInit : Snapshot 2 :=
  { time := 0, x := fun _ => 7, P := 1 }

/-- C8 witness: the two concrete disjoint init measurements commute on the
concrete snapshot. -/
theorem initMeasurement_disjoint_commutes_witness :
    initMeasurementApply initB 0 (initMeasurementApply initA 0 sInit)
      = initMeasurementApply initA 0 (initMeasurementApply initB 0 sInit) :=
  (initMeasurement_disjoint_commutes initA initB 0 sInit (by decide)).1

end MsfCore
